import Mathlib

/-!
Verification of the geometric core of the `mvp` animation-component library.

The development shallowly embeds the numeric computations of the repository:

* `components/solid_geometry/solid_base.py` (`PolyhedronBase`): edge topology,
  face visibility and the dashed/solid edge-style update;
* `components/solid_geometry/cube.py` (`CubeGeometry`): vertex layout and the
  outward-normal face correction;
* `components/solid_geometry/cone.py` (`ConeOblique`): tangent-point offsets;
* `components/solid_geometry/sphere.py` (`SphereOblique`): X-axis/ellipse
  intersection;
* `components/math/analytic_geometry.py` (`StandardEllipse`,
  `StandardHyperbola`, `StandardParabola`);
* `components/math/analytic_line.py` (`StandardLine`).

Conventions.  Machine floats are idealized as exact arithmetic: computations
whose observable results are sign tests or rational values are embedded over
`ℚ`, computations involving square roots over `ℝ`.  The source frequently
normalizes a vector (divides by its positive Euclidean norm) immediately
before using only the sign of a dot product with it; such normalizations are
dropped in the embedding because dividing by a positive scalar cannot change
the sign, and a comparison `norm v < eps` between non-negative quantities is
embedded as the exact equivalent `normSq v < eps ^ 2`.  Python exceptions are
embedded as `Option.none`.
-/

namespace Mvp

/-- 3D vectors with rational coordinates, standing for the `numpy` 3-arrays of
the source.  Componentwise `+`/`-` come from the `Prod` instances. -/
abbrev Vec3 : Type := ℚ × ℚ × ℚ

namespace Vec3

/-- Scalar multiple of a vector. -/
def scale (c : ℚ) (v : Vec3) : Vec3 := (c * v.1, c * v.2.1, c * v.2.2)

/-- Dot product, `np.dot`. -/
def dot (v w : Vec3) : ℚ := v.1 * w.1 + v.2.1 * w.2.1 + v.2.2 * w.2.2

/-- Cross product, `np.cross`. -/
def cross (v w : Vec3) : Vec3 :=
  (v.2.1 * w.2.2 - v.2.2 * w.2.1,
   v.2.2 * w.1 - v.1 * w.2.2,
   v.1 * w.2.1 - v.2.1 * w.1)

/-- Squared Euclidean norm; the square of `np.linalg.norm`. -/
def normSq (v : Vec3) : ℚ := v.1 * v.1 + v.2.1 * v.2.1 + v.2.2 * v.2.2

theorem dot_scale_left (c : ℚ) (v w : Vec3) : dot (scale c v) w = c * dot v w := by
  simp [dot, scale]; ring

theorem normSq_nonneg (v : Vec3) : 0 ≤ normSq v := by
  have h1 : 0 ≤ v.1 * v.1 := mul_self_nonneg _
  have h2 : 0 ≤ v.2.1 * v.2.1 := mul_self_nonneg _
  have h3 : 0 ≤ v.2.2 * v.2.2 := mul_self_nonneg _
  unfold normSq; linarith

end Vec3

/-! ## `PolyhedronBase` (solid_base.py)

The class stores a vertex list, a face list (vertex-index loops), the derived
edge set with its edge-to-face incidence, and one `Line` primitive per edge
whose stroke style is the only mutable state touched by
`update_dashed_lines`. -/

/-- The stroke style of an edge `Line` primitive: the `stroke_color`,
`stroke_opacity` and `stroke_width` attributes set by `set_style`.  The color
payload is an arbitrary type `α` (the source uses Manim color constants). -/
structure Style (α : Type) where
  color : α
  opacity : ℚ
  width : ℚ
deriving DecidableEq

/-- The vertex-index pair of an edge, smaller index first: the normalization
`if v1 > v2: v1, v2 = v2, v1` of `_build_edge_topology`. -/
def normPair (v1 v2 : ℕ) : ℕ × ℕ := if v1 > v2 then (v2, v1) else (v1, v2)

/-- The (normalized) edges contributed by one face: the pairs
`(face[i], face[(i + 1) % n])` of `_build_edge_topology`'s inner loop.
Out-of-range list indexing defaults to `0`; every call site of the source
indexes within range. -/
def facePairs (face : List ℕ) : List (ℕ × ℕ) :=
  (List.range face.length).map
    (fun i => normPair (face.getD i 0) (face.getD ((i + 1) % face.length) 0))

/-- The edge set of `_build_edge_topology` (the Python `set` is embedded as a
duplicate-free list; the set's iteration order is arbitrary and no claim
depends on the order chosen here). -/
def edgesOf (faces : List (List ℕ)) : List (ℕ × ℕ) :=
  ((faces.map facePairs).flatten).dedup

/-- `edge_to_faces[edge]` of `_build_edge_topology`: the indices of the faces
whose boundary loop contains the edge, in increasing order (the source appends
`face_idx` while scanning the faces in order; a face repeating an edge in its
loop would be appended once per repetition there, which is observationally
equal under the `all` that consumes this list). -/
def edgeToFaces (faces : List (List ℕ)) (e : ℕ × ℕ) : List ℕ :=
  (List.range faces.length).filter (fun f => e ∈ facePairs (faces.getD f []))

/-- Face normal of `_compute_face_normal`, up to a positive scalar: the cross
product of the first two edge vectors out of `face[0]`, with the source's
degenerate fallbacks (`len(face) < 3`, near-zero cross product) returning
`(0, 0, 1)`.  The source divides the cross product by its norm; the sign of
any dot product with it is unchanged, which is all its callers use.  The
source's test `norm < 1e-6` is embedded as `normSq < 1e-12`. -/
def computeFaceNormal (vertices : List Vec3) (face : List ℕ) : Vec3 :=
  if face.length < 3 then (0, 0, 1)
  else
    let v0 := vertices.getD (face.getD 0 0) 0
    let v1 := vertices.getD (face.getD 1 0) 0
    let v2 := vertices.getD (face.getD 2 0) 0
    let n := Vec3.cross (v1 - v0) (v2 - v0)
    if Vec3.normSq n < 1 / 10 ^ 12 then (0, 0, 1) else n

/-- Face center of `_compute_face_center`: the mean of the face's vertices.
An empty face raises in Python; in the embedding `1 / 0 = 0` and no claim
uses an empty face. -/
def computeFaceCenter (vertices : List Vec3) (face : List ℕ) : Vec3 :=
  Vec3.scale (1 / face.length) (face.foldl (fun acc i => acc + vertices.getD i 0) 0)

/-- `_is_face_visible`: the face center is translated by `obj_center`
(`self.get_center()`, the group's bounding-box center, passed here as `oc`),
the view vector runs from the camera to that world-space center, and the face
counts as visible exactly when its dot product with the face normal is
negative.  The source normalizes the view vector by its norm plus `1e-6`, a
positive scalar that cannot change the sign of the dot product. -/
def isFaceVisible (vertices : List Vec3) (faces : List (List ℕ))
    (f : ℕ) (oc cam : Vec3) : Bool :=
  let fc := computeFaceCenter vertices (faces.getD f [])
  let view := (oc + fc) - cam
  let normal := computeFaceNormal vertices (faces.getD f [])
  Vec3.dot view normal < 0

/-- The state of a `PolyhedronBase` instance that the verified operations
read or write: the stored vertices, faces, colors, stroke width, the derived
edge list, and the current stroke style of each edge's `Line` primitive
(`styles`, total over index pairs; only values at members of `edges`
correspond to primitives). -/
structure Polyhedron (α : Type) where
  verticesLocal : List Vec3
  faces : List (List ℕ)
  edgeColor : α
  vertexColor : α
  dashedColor : α
  strokeWidth : ℚ
  edges : List (ℕ × ℕ)
  styles : ℕ × ℕ → Style α

/-- The solid style of `update_dashed_lines`'s visible branch, which is also
the style every edge `Line` is created with in `_create_edges`. -/
def solidStyle {α : Type} (P : Polyhedron α) : Style α :=
  ⟨P.edgeColor, 1, P.strokeWidth⟩

/-- The dashed (hidden) style of `update_dashed_lines`: gray color, half
opacity, `0.7` of the stroke width. -/
def dashedStyle {α : Type} (P : Polyhedron α) : Style α :=
  ⟨P.dashedColor, 1 / 2, P.strokeWidth * (7 / 10)⟩

/-- `PolyhedronBase.__init__`: stores the inputs, builds the edge topology and
creates every edge as a solid line. -/
def mkPolyhedron {α : Type} (vertices : List Vec3) (faces : List (List ℕ))
    (edgeColor vertexColor dashedColor : α) (strokeWidth : ℚ) : Polyhedron α :=
  { verticesLocal := vertices
    faces := faces
    edgeColor := edgeColor
    vertexColor := vertexColor
    dashedColor := dashedColor
    strokeWidth := strokeWidth
    edges := edgesOf faces
    styles := fun _ => ⟨edgeColor, 1, strokeWidth⟩ }

/-- `update_dashed_lines` with an explicitly supplied camera position: the
face visibility list is computed first, then every edge whose incident faces
are all invisible is restyled dashed and every other edge solid.  `oc` is
`self.get_center()` read during the update (a pure read of the unchanged
point data).  The source mutates each `Line` in place; the embedding returns
the state with the new style map. -/
def updateDashedLines {α : Type} (P : Polyhedron α) (oc cam : Vec3) : Polyhedron α :=
  let vis := (List.range P.faces.length).map
    (fun f => isFaceVisible P.verticesLocal P.faces f oc cam)
  { P with
    styles := fun e =>
      if e ∈ P.edges then
        (if (edgeToFaces P.faces e).all (fun f => ! vis.getD f false) then
          dashedStyle P
        else
          solidStyle P)
      else P.styles e }

/-- Spec-side dash policy, formalized from the specification's words: every
face whose boundary contains the edge is back-facing (not visible) from the
viewpoint.  Compared against the source-derived `updateDashedLines` below. -/
def edgeAllFacesBack (vertices : List Vec3) (faces : List (List ℕ))
    (e : ℕ × ℕ) (oc cam : Vec3) : Prop :=
  ∀ f, f < faces.length → e ∈ facePairs (faces.getD f []) →
    isFaceVisible vertices faces f oc cam = false

instance (vertices : List Vec3) (faces : List (List ℕ)) (e : ℕ × ℕ) (oc cam : Vec3) :
    Decidable (edgeAllFacesBack vertices faces e oc cam) := by
  unfold edgeAllFacesBack; infer_instance

theorem mem_edgeToFaces (faces : List (List ℕ)) (e : ℕ × ℕ) (f : ℕ) :
    f ∈ edgeToFaces faces e ↔ f < faces.length ∧ e ∈ facePairs (faces.getD f []) := by
  simp [edgeToFaces, List.mem_filter, List.mem_range]

theorem getD_map_range (g : ℕ → Bool) (n f : ℕ) (h : f < n) :
    (((List.range n).map g).getD f false) = g f := by
  rw [List.getD_eq_getElem?_getD]
  simp [List.getElem?_map, List.getElem?_range, h]

theorem dashed_ne_solid {α : Type} (P : Polyhedron α) : dashedStyle P ≠ solidStyle P := by
  intro h
  have := congrArg Style.opacity h
  norm_num [dashedStyle, solidStyle] at this

theorem update_styles_of_mem {α : Type} (P : Polyhedron α) (oc cam : Vec3)
    (e : ℕ × ℕ) (he : e ∈ P.edges) :
    (updateDashedLines P oc cam).styles e =
      if edgeAllFacesBack P.verticesLocal P.faces e oc cam then dashedStyle P
      else solidStyle P := by
  have hall : ((edgeToFaces P.faces e).all
      (fun f => ! (((List.range P.faces.length).map
        (fun f => isFaceVisible P.verticesLocal P.faces f oc cam)).getD f false)) = true)
      ↔ edgeAllFacesBack P.verticesLocal P.faces e oc cam := by
    rw [List.all_eq_true]
    constructor
    · intro h f hf hmem
      have hin : f ∈ edgeToFaces P.faces e := (mem_edgeToFaces _ _ _).mpr ⟨hf, hmem⟩
      have := h f hin
      rw [getD_map_range _ _ _ hf] at this
      simpa using this
    · intro h f hin
      obtain ⟨hf, hmem⟩ := (mem_edgeToFaces _ _ _).mp hin
      rw [getD_map_range _ _ _ hf]
      simpa using h f hf hmem
  by_cases hb : edgeAllFacesBack P.verticesLocal P.faces e oc cam
  · rw [if_pos hb]
    simp only [updateDashedLines, if_pos he]
    rw [if_pos (hall.mpr hb)]
  · rw [if_neg hb]
    simp only [updateDashedLines, if_pos he]
    rw [if_neg (fun hc => hb (hall.mp hc))]

/-- Claim C1: for every polyhedron built by `PolyhedronBase` from a vertex list and
face index lists and every supplied camera position, after
`update_dashed_lines` an edge carries the dashed (hidden) style exactly when
every face whose boundary loop contains that edge is back-facing from the
viewpoint, and carries the solid style otherwise; and a face counts as
visible (front-facing) exactly when the dot product of the view direction
(from the camera toward the face's world-space center) with the face normal
(right-hand rule on the face's first three vertices) is negative. -/
theorem C1_update_dashed_lines_policy {α : Type} (vertices : List Vec3)
    (faces : List (List ℕ)) (ec vc dc : α) (sw : ℚ) (oc cam : Vec3) (e : ℕ × ℕ)
    (he : e ∈ (mkPolyhedron vertices faces ec vc dc sw).edges) :
    ((updateDashedLines (mkPolyhedron vertices faces ec vc dc sw) oc cam).styles e =
        dashedStyle (mkPolyhedron vertices faces ec vc dc sw) ↔
      edgeAllFacesBack vertices faces e oc cam) ∧
    (¬ edgeAllFacesBack vertices faces e oc cam →
      (updateDashedLines (mkPolyhedron vertices faces ec vc dc sw) oc cam).styles e =
        solidStyle (mkPolyhedron vertices faces ec vc dc sw)) ∧
    (∀ f, isFaceVisible vertices faces f oc cam = true ↔
      Vec3.dot ((oc + computeFaceCenter vertices (faces.getD f [])) - cam)
        (computeFaceNormal vertices (faces.getD f [])) < 0) := by
  set P := mkPolyhedron vertices faces ec vc dc sw with hP
  have hv : P.verticesLocal = vertices := rfl
  have hf : P.faces = faces := rfl
  have hstyle := update_styles_of_mem P oc cam e he
  rw [hv, hf] at hstyle
  refine ⟨?_, ?_, ?_⟩
  · constructor
    · intro hs
      by_contra hb
      rw [hstyle, if_neg hb] at hs
      exact dashed_ne_solid P hs.symm
    · intro hb
      rw [hstyle, if_pos hb]
  · intro hb
    rw [hstyle, if_neg hb]
  · intro f
    simp [isFaceVisible, decide_eq_true_iff]

/-- Claim C1 witness: the policy theorem instantiated on a concrete one-face
triangle with the camera on the positive z axis. -/
theorem C1_update_dashed_lines_policy_witness :
    (((0, 1) : ℕ × ℕ) ∈
      (mkPolyhedron [(0,0,0), (1,0,0), (0,1,0)] [[0,1,2]] 0 1 2 4 : Polyhedron ℕ).edges) ∧
    ((updateDashedLines
          (mkPolyhedron [(0,0,0), (1,0,0), (0,1,0)] [[0,1,2]] 0 1 2 4) (0,0,0) (0,0,5)).styles (0,1) =
        dashedStyle (mkPolyhedron [(0,0,0), (1,0,0), (0,1,0)] [[0,1,2]] 0 1 2 4) ↔
      edgeAllFacesBack [(0,0,0), (1,0,0), (0,1,0)] [[0,1,2]] (0,1) (0,0,0) (0,0,5)) ∧
    (¬ edgeAllFacesBack [(0,0,0), (1,0,0), (0,1,0)] [[0,1,2]] (0,1) (0,0,0) (0,0,5) →
      (updateDashedLines
          (mkPolyhedron [(0,0,0), (1,0,0), (0,1,0)] [[0,1,2]] 0 1 2 4) (0,0,0) (0,0,5)).styles (0,1) =
        solidStyle (mkPolyhedron [(0,0,0), (1,0,0), (0,1,0)] [[0,1,2]] 0 1 2 4)) ∧
    (∀ f, isFaceVisible [(0,0,0), (1,0,0), (0,1,0)] [[0,1,2]] f (0,0,0) (0,0,5) = true ↔
      Vec3.dot (((0,0,0) + computeFaceCenter [(0,0,0), (1,0,0), (0,1,0)] ([[0,1,2]].getD f [])) - (0,0,5))
        (computeFaceNormal [(0,0,0), (1,0,0), (0,1,0)] ([[0,1,2]].getD f [])) < 0) := by
  have hmem : (((0, 1) : ℕ × ℕ) ∈
      (mkPolyhedron [((0:ℚ),(0:ℚ),(0:ℚ)), (1,0,0), (0,1,0)] [[0,1,2]] 0 1 2 4 : Polyhedron ℕ).edges) := by
    simp only [mkPolyhedron, edgesOf]
    rw [List.mem_dedup]
    decide
  exact ⟨hmem, C1_update_dashed_lines_policy [(0,0,0), (1,0,0), (0,1,0)] [[0,1,2]] 0 1 2 4
    (0,0,0) (0,0,5) (0,1) hmem⟩

/-- Claim C9: `update_dashed_lines` is idempotent for a fixed camera position and
touches nothing beyond the edge stroke styles: a second invocation yields the
identical state, and one invocation leaves the vertices, the faces and the
edge topology unchanged. -/
theorem C9_update_dashed_lines_idempotent {α : Type} (P : Polyhedron α) (oc cam : Vec3) :
    updateDashedLines (updateDashedLines P oc cam) oc cam = updateDashedLines P oc cam ∧
    (updateDashedLines P oc cam).verticesLocal = P.verticesLocal ∧
    (updateDashedLines P oc cam).faces = P.faces ∧
    (updateDashedLines P oc cam).edges = P.edges ∧
    (updateDashedLines P oc cam).edgeColor = P.edgeColor ∧
    (updateDashedLines P oc cam).dashedColor = P.dashedColor ∧
    (updateDashedLines P oc cam).strokeWidth = P.strokeWidth := by
  refine ⟨?_, rfl, rfl, rfl, rfl, rfl, rfl⟩
  cases P with
  | mk v fs ec vc dc sw ed st =>
    simp only [updateDashedLines]
    congr 1
    funext e
    by_cases he : e ∈ ed
    · simp [he, dashedStyle, solidStyle]
    · simp [he]

/-! ## `CubeGeometry` (cube.py)

The cube lays out eight vertices (A, B, C, D, A1, B1, C1, D1) on a side-length
grid, translates them so the chosen origin vertex sits at the origin, and runs
`_correct_face_normals` over a fixed initial face list before handing both to
`PolyhedronBase`. -/

/-- The preliminary face normal of `_correct_face_normals`, up to the positive
normalization factor the source divides out: the cross product of the first
two consecutive edge vectors `v1 - v0` and `v2 - v1`. -/
def consecNormal (vertices : List Vec3) (face : List ℕ) : Vec3 :=
  let v0 := vertices.getD (face.getD 0 0) 0
  let v1 := vertices.getD (face.getD 1 0) 0
  let v2 := vertices.getD (face.getD 2 0) 0
  Vec3.cross (v1 - v0) (v2 - v1)

/-- The geometric center used by `_correct_face_normals`: the mean of all
vertices. -/
def geomCenter (vertices : List Vec3) : Vec3 :=
  Vec3.scale (1 / vertices.length) (vertices.foldl (· + ·) 0)

/-- One iteration of `_correct_face_normals`: a face whose preliminary normal
is near zero (`norm < 1e-6`, embedded as `normSq < 1e-12`) is kept unchanged;
otherwise the face is reversed exactly when the dot product of the normal with
the vector from the geometric center to the face center is negative.  The
source normalizes both vectors (the latter by `norm + 1e-6`) before the dot
product; both factors are positive and cannot change its sign. -/
def correctFace (vertices : List Vec3) (center : Vec3) (face : List ℕ) : List ℕ :=
  let n := consecNormal vertices face
  if Vec3.normSq n < 1 / 10 ^ 12 then face
  else if Vec3.dot n (computeFaceCenter vertices face - center) < 0 then face.reverse
  else face

/-- `_correct_face_normals`: the geometric center is computed once, then every
face is corrected. -/
def correctFaceNormals (vertices : List Vec3) (faces : List (List ℕ)) : List (List ℕ) :=
  faces.map (correctFace vertices (geomCenter vertices))

/-- The standard cube vertices of `CubeGeometry.__init__` in the stored order
A, B, C, D, A1, B1, C1, D1 for side length `L`. -/
def cubeStandardVertices (L : ℚ) : List Vec3 :=
  [(0, 0, 0), (L, 0, 0), (L, L, 0), (0, L, 0),
   (0, 0, L), (L, 0, L), (L, L, L), (0, L, L)]

/-- The cube's vertex list after the origin-point offset: every standard
vertex translated by `t = -standard_vertices[origin_point]` (kept here as an
arbitrary translation, of which the eight origin choices are instances). -/
def cubeVertices (L : ℚ) (t : Vec3) : List Vec3 :=
  (cubeStandardVertices L).map (· + t)

/-- The initial face index lists of `CubeGeometry.__init__`, before the
normal correction. -/
def cubeInitFaces : List (List ℕ) :=
  [[0, 1, 2, 3], [4, 5, 6, 7], [0, 1, 5, 4], [1, 2, 6, 5], [2, 3, 7, 6], [3, 0, 4, 7]]

/-- The cube's face lists as passed to `PolyhedronBase`: the initial faces
after `_correct_face_normals`. -/
def cubeFaces (L : ℚ) (t : Vec3) : List (List ℕ) :=
  correctFaceNormals (cubeVertices L t) cubeInitFaces

/-- `CubeGeometry.__init__`: the corrected faces and offset vertices handed to
the `PolyhedronBase` constructor. -/
def mkCubeGeometry {α : Type} (L : ℚ) (t : Vec3)
    (edgeColor vertexColor dashedColor : α) (strokeWidth : ℚ) : Polyhedron α :=
  mkPolyhedron (cubeVertices L t) (cubeFaces L t) edgeColor vertexColor dashedColor strokeWidth

theorem correctFace_bottom (L : ℚ) (t : Vec3) (hL : 1 / 1000 ≤ L) :
    correctFace (cubeVertices L t) (geomCenter (cubeVertices L t)) [0, 1, 2, 3] =
      [3, 2, 1, 0] := by
  have hn : consecNormal (cubeVertices L t) [0, 1, 2, 3] = (0, 0, L * L) := by
    simp [consecNormal, cubeVertices, cubeStandardVertices, Vec3.cross, List.getD,
      Prod.ext_iff]
  have hd : computeFaceCenter (cubeVertices L t) [0, 1, 2, 3] -
      geomCenter (cubeVertices L t) = (0, 0, -(L / 2)) := by
    simp [computeFaceCenter, geomCenter, cubeVertices, cubeStandardVertices,
      Vec3.scale, List.getD, List.foldl, Prod.ext_iff] <;>
      exact ⟨by ring, by ring, by ring⟩
  have hL2 : (1 / 1000000 : ℚ) ≤ L * L := by nlinarith
  rw [correctFace]
  simp only [hn, hd]
  rw [if_neg, if_pos]
  · rfl
  · show Vec3.dot (0, 0, L * L) (0, 0, -(L / 2)) < 0
    simp [Vec3.dot]
    nlinarith
  · show ¬ Vec3.normSq (0, 0, L * L) < 1 / 10 ^ 12
    simp [Vec3.normSq]
    nlinarith [hL2]

theorem correctFace_top (L : ℚ) (t : Vec3) (hL : 1 / 1000 ≤ L) :
    correctFace (cubeVertices L t) (geomCenter (cubeVertices L t)) [4, 5, 6, 7] =
      [4, 5, 6, 7] := by
  have hn : consecNormal (cubeVertices L t) [4, 5, 6, 7] = (0, 0, L * L) := by
    simp [consecNormal, cubeVertices, cubeStandardVertices, Vec3.cross, List.getD,
      Prod.ext_iff]
  have hd : computeFaceCenter (cubeVertices L t) [4, 5, 6, 7] -
      geomCenter (cubeVertices L t) = (0, 0, L / 2) := by
    simp [computeFaceCenter, geomCenter, cubeVertices, cubeStandardVertices,
      Vec3.scale, List.getD, List.foldl, Prod.ext_iff] <;>
      exact ⟨by ring, by ring, by ring⟩
  have hL2 : (1 / 1000000 : ℚ) ≤ L * L := by nlinarith
  rw [correctFace]
  simp only [hn, hd]
  rw [if_neg, if_neg]
  · show ¬ Vec3.dot (0, 0, L * L) (0, 0, L / 2) < 0
    simp [Vec3.dot]
    nlinarith
  · show ¬ Vec3.normSq (0, 0, L * L) < 1 / 10 ^ 12
    simp [Vec3.normSq]
    nlinarith [hL2]

theorem correctFace_front (L : ℚ) (t : Vec3) (hL : 1 / 1000 ≤ L) :
    correctFace (cubeVertices L t) (geomCenter (cubeVertices L t)) [0, 1, 5, 4] =
      [0, 1, 5, 4] := by
  have hn : consecNormal (cubeVertices L t) [0, 1, 5, 4] = (0, -(L * L), 0) := by
    simp [consecNormal, cubeVertices, cubeStandardVertices, Vec3.cross, List.getD,
      Prod.ext_iff]
  have hd : computeFaceCenter (cubeVertices L t) [0, 1, 5, 4] -
      geomCenter (cubeVertices L t) = (0, -(L / 2), 0) := by
    simp [computeFaceCenter, geomCenter, cubeVertices, cubeStandardVertices,
      Vec3.scale, List.getD, List.foldl, Prod.ext_iff] <;>
      exact ⟨by ring, by ring, by ring⟩
  have hL2 : (1 / 1000000 : ℚ) ≤ L * L := by nlinarith
  rw [correctFace]
  simp only [hn, hd]
  rw [if_neg, if_neg]
  · show ¬ Vec3.dot (0, -(L * L), 0) (0, -(L / 2), 0) < 0
    simp [Vec3.dot]
    nlinarith
  · show ¬ Vec3.normSq (0, -(L * L), 0) < 1 / 10 ^ 12
    simp [Vec3.normSq]
    nlinarith [hL2]

theorem correctFace_right (L : ℚ) (t : Vec3) (hL : 1 / 1000 ≤ L) :
    correctFace (cubeVertices L t) (geomCenter (cubeVertices L t)) [1, 2, 6, 5] =
      [1, 2, 6, 5] := by
  have hn : consecNormal (cubeVertices L t) [1, 2, 6, 5] = (L * L, 0, 0) := by
    simp [consecNormal, cubeVertices, cubeStandardVertices, Vec3.cross, List.getD,
      Prod.ext_iff]
  have hd : computeFaceCenter (cubeVertices L t) [1, 2, 6, 5] -
      geomCenter (cubeVertices L t) = (L / 2, 0, 0) := by
    simp [computeFaceCenter, geomCenter, cubeVertices, cubeStandardVertices,
      Vec3.scale, List.getD, List.foldl, Prod.ext_iff] <;>
      exact ⟨by ring, by ring, by ring⟩
  have hL2 : (1 / 1000000 : ℚ) ≤ L * L := by nlinarith
  rw [correctFace]
  simp only [hn, hd]
  rw [if_neg, if_neg]
  · show ¬ Vec3.dot (L * L, 0, 0) (L / 2, 0, 0) < 0
    simp [Vec3.dot]
    nlinarith
  · show ¬ Vec3.normSq (L * L, 0, 0) < 1 / 10 ^ 12
    simp [Vec3.normSq]
    nlinarith [hL2]

theorem correctFace_back (L : ℚ) (t : Vec3) (hL : 1 / 1000 ≤ L) :
    correctFace (cubeVertices L t) (geomCenter (cubeVertices L t)) [2, 3, 7, 6] =
      [2, 3, 7, 6] := by
  have hn : consecNormal (cubeVertices L t) [2, 3, 7, 6] = (0, L * L, 0) := by
    simp [consecNormal, cubeVertices, cubeStandardVertices, Vec3.cross, List.getD,
      Prod.ext_iff]
  have hd : computeFaceCenter (cubeVertices L t) [2, 3, 7, 6] -
      geomCenter (cubeVertices L t) = (0, L / 2, 0) := by
    simp [computeFaceCenter, geomCenter, cubeVertices, cubeStandardVertices,
      Vec3.scale, List.getD, List.foldl, Prod.ext_iff] <;>
      exact ⟨by ring, by ring, by ring⟩
  have hL2 : (1 / 1000000 : ℚ) ≤ L * L := by nlinarith
  rw [correctFace]
  simp only [hn, hd]
  rw [if_neg, if_neg]
  · show ¬ Vec3.dot (0, L * L, 0) (0, L / 2, 0) < 0
    simp [Vec3.dot]
    nlinarith
  · show ¬ Vec3.normSq (0, L * L, 0) < 1 / 10 ^ 12
    simp [Vec3.normSq]
    nlinarith [hL2]

theorem correctFace_left (L : ℚ) (t : Vec3) (hL : 1 / 1000 ≤ L) :
    correctFace (cubeVertices L t) (geomCenter (cubeVertices L t)) [3, 0, 4, 7] =
      [3, 0, 4, 7] := by
  have hn : consecNormal (cubeVertices L t) [3, 0, 4, 7] = (-(L * L), 0, 0) := by
    simp [consecNormal, cubeVertices, cubeStandardVertices, Vec3.cross, List.getD,
      Prod.ext_iff]
  have hd : computeFaceCenter (cubeVertices L t) [3, 0, 4, 7] -
      geomCenter (cubeVertices L t) = (-(L / 2), 0, 0) := by
    simp [computeFaceCenter, geomCenter, cubeVertices, cubeStandardVertices,
      Vec3.scale, List.getD, List.foldl, Prod.ext_iff] <;>
      exact ⟨by ring, by ring, by ring⟩
  have hL2 : (1 / 1000000 : ℚ) ≤ L * L := by nlinarith
  rw [correctFace]
  simp only [hn, hd]
  rw [if_neg, if_neg]
  · show ¬ Vec3.dot (-(L * L), 0, 0) (-(L / 2), 0, 0) < 0
    simp [Vec3.dot]
    nlinarith
  · show ¬ Vec3.normSq (-(L * L), 0, 0) < 1 / 10 ^ 12
    simp [Vec3.normSq]
    nlinarith [hL2]

theorem cubeFaces_eq (L : ℚ) (t : Vec3) (hL : 1 / 1000 ≤ L) :
    cubeFaces L t =
      [[3, 2, 1, 0], [4, 5, 6, 7], [0, 1, 5, 4], [1, 2, 6, 5], [2, 3, 7, 6], [3, 0, 4, 7]] := by
  show correctFaceNormals (cubeVertices L t) cubeInitFaces = _
  rw [correctFaceNormals, cubeInitFaces]
  simp only [List.map]
  rw [correctFace_bottom L t hL, correctFace_top L t hL, correctFace_front L t hL,
    correctFace_right L t hL, correctFace_back L t hL, correctFace_left L t hL]

/-- Claim C10 (amended): for every side length of at least `0.001` (the source's
`norm < 1e-6` degeneracy guard keeps smaller cubes' faces uncorrected) and
every origin translation, each face produced by `_correct_face_normals` has a
consecutive-edge right-hand-rule normal whose dot product with the vector from
the cube's geometric center to the face's center is non-negative, i.e. all
face normals point outward. -/
theorem C10_cube_face_normals_outward (L : ℚ) (t : Vec3) (face : List ℕ)
    (hL : 1 / 1000 ≤ L) (hface : face ∈ cubeFaces L t) :
    0 ≤ Vec3.dot (consecNormal (cubeVertices L t) face)
      (computeFaceCenter (cubeVertices L t) face - geomCenter (cubeVertices L t)) := by
  have hL0 : (0 : ℚ) < L := lt_of_lt_of_le (by norm_num) hL
  rw [cubeFaces_eq L t hL] at hface
  simp only [List.mem_cons, List.not_mem_nil, or_false] at hface
  rcases hface with rfl | rfl | rfl | rfl | rfl | rfl
  · have hn : consecNormal (cubeVertices L t) [3, 2, 1, 0] = (0, 0, -(L * L)) := by
      simp [consecNormal, cubeVertices, cubeStandardVertices, Vec3.cross, List.getD,
        Prod.ext_iff]
    have hd : computeFaceCenter (cubeVertices L t) [3, 2, 1, 0] -
        geomCenter (cubeVertices L t) = (0, 0, -(L / 2)) := by
      simp [computeFaceCenter, geomCenter, cubeVertices, cubeStandardVertices,
        Vec3.scale, List.getD, List.foldl, Prod.ext_iff] <;>
        exact ⟨by ring, by ring, by ring⟩
    rw [hn, hd]
    simp [Vec3.dot]
    nlinarith
  · have hn : consecNormal (cubeVertices L t) [4, 5, 6, 7] = (0, 0, L * L) := by
      simp [consecNormal, cubeVertices, cubeStandardVertices, Vec3.cross, List.getD,
        Prod.ext_iff]
    have hd : computeFaceCenter (cubeVertices L t) [4, 5, 6, 7] -
        geomCenter (cubeVertices L t) = (0, 0, L / 2) := by
      simp [computeFaceCenter, geomCenter, cubeVertices, cubeStandardVertices,
        Vec3.scale, List.getD, List.foldl, Prod.ext_iff] <;>
        exact ⟨by ring, by ring, by ring⟩
    rw [hn, hd]
    simp [Vec3.dot]
    nlinarith
  · have hn : consecNormal (cubeVertices L t) [0, 1, 5, 4] = (0, -(L * L), 0) := by
      simp [consecNormal, cubeVertices, cubeStandardVertices, Vec3.cross, List.getD,
        Prod.ext_iff]
    have hd : computeFaceCenter (cubeVertices L t) [0, 1, 5, 4] -
        geomCenter (cubeVertices L t) = (0, -(L / 2), 0) := by
      simp [computeFaceCenter, geomCenter, cubeVertices, cubeStandardVertices,
        Vec3.scale, List.getD, List.foldl, Prod.ext_iff] <;>
        exact ⟨by ring, by ring, by ring⟩
    rw [hn, hd]
    simp [Vec3.dot]
    nlinarith
  · have hn : consecNormal (cubeVertices L t) [1, 2, 6, 5] = (L * L, 0, 0) := by
      simp [consecNormal, cubeVertices, cubeStandardVertices, Vec3.cross, List.getD,
        Prod.ext_iff]
    have hd : computeFaceCenter (cubeVertices L t) [1, 2, 6, 5] -
        geomCenter (cubeVertices L t) = (L / 2, 0, 0) := by
      simp [computeFaceCenter, geomCenter, cubeVertices, cubeStandardVertices,
        Vec3.scale, List.getD, List.foldl, Prod.ext_iff] <;>
        exact ⟨by ring, by ring, by ring⟩
    rw [hn, hd]
    simp [Vec3.dot]
    nlinarith
  · have hn : consecNormal (cubeVertices L t) [2, 3, 7, 6] = (0, L * L, 0) := by
      simp [consecNormal, cubeVertices, cubeStandardVertices, Vec3.cross, List.getD,
        Prod.ext_iff]
    have hd : computeFaceCenter (cubeVertices L t) [2, 3, 7, 6] -
        geomCenter (cubeVertices L t) = (0, L / 2, 0) := by
      simp [computeFaceCenter, geomCenter, cubeVertices, cubeStandardVertices,
        Vec3.scale, List.getD, List.foldl, Prod.ext_iff] <;>
        exact ⟨by ring, by ring, by ring⟩
    rw [hn, hd]
    simp [Vec3.dot]
    nlinarith
  · have hn : consecNormal (cubeVertices L t) [3, 0, 4, 7] = (-(L * L), 0, 0) := by
      simp [consecNormal, cubeVertices, cubeStandardVertices, Vec3.cross, List.getD,
        Prod.ext_iff]
    have hd : computeFaceCenter (cubeVertices L t) [3, 0, 4, 7] -
        geomCenter (cubeVertices L t) = (-(L / 2), 0, 0) := by
      simp [computeFaceCenter, geomCenter, cubeVertices, cubeStandardVertices,
        Vec3.scale, List.getD, List.foldl, Prod.ext_iff] <;>
        exact ⟨by ring, by ring, by ring⟩
    rw [hn, hd]
    simp [Vec3.dot]
    nlinarith

/-- Claim C10 witness: the outward-normal invariant instantiated on the corrected
bottom face of the side-length-2 cube anchored at vertex A. -/
theorem C10_cube_face_normals_outward_witness :
    ((1 : ℚ) / 1000 ≤ 2) ∧ ([3, 2, 1, 0] ∈ cubeFaces 2 (0, 0, 0)) ∧
    0 ≤ Vec3.dot (consecNormal (cubeVertices 2 (0, 0, 0)) [3, 2, 1, 0])
      (computeFaceCenter (cubeVertices 2 (0, 0, 0)) [3, 2, 1, 0] -
        geomCenter (cubeVertices 2 (0, 0, 0))) := by
  have hmem : [3, 2, 1, 0] ∈ cubeFaces 2 ((0 : ℚ), (0 : ℚ), (0 : ℚ)) := by
    rw [cubeFaces_eq 2 (0, 0, 0) (by norm_num)]
    simp
  exact ⟨by norm_num, hmem,
    C10_cube_face_normals_outward 2 (0, 0, 0) [3, 2, 1, 0] (by norm_num) hmem⟩

/-- Claim C10 counterexample: for side length `1/2000` (positive, below the source's
`1e-6` norm guard) with origin A, `_correct_face_normals` leaves the bottom
face `[0, 1, 2, 3]` uncorrected and its consecutive-edge normal points inward:
the dot product with the center-to-face-center direction is negative. -/
theorem C10_counterexample :
    ([0, 1, 2, 3] ∈ cubeFaces (1 / 2000) (0, 0, 0)) ∧
    Vec3.dot (consecNormal (cubeVertices (1 / 2000) (0, 0, 0)) [0, 1, 2, 3])
      (computeFaceCenter (cubeVertices (1 / 2000) (0, 0, 0)) [0, 1, 2, 3] -
        geomCenter (cubeVertices (1 / 2000) (0, 0, 0))) < 0 := by
  have hfaces : cubeFaces (1 / 2000) ((0 : ℚ), (0 : ℚ), (0 : ℚ)) = cubeInitFaces := by
    rw [cubeFaces, correctFaceNormals, cubeInitFaces]
    simp only [List.map]
    norm_num [correctFace, consecNormal, cubeVertices, cubeStandardVertices,
      Vec3.cross, Vec3.normSq, List.getD]
  constructor
  · rw [hfaces, cubeInitFaces]
    simp
  · norm_num [consecNormal, computeFaceCenter, geomCenter, cubeVertices,
      cubeStandardVertices, Vec3.cross, Vec3.dot, Vec3.scale, List.getD, List.foldl]

/-! ## The concrete cube scene of the edge-visibility test

`CubeGeometry(side_length=2, origin_point="A")` with a fully front-facing
viewpoint on the positive z axis through the cube's center.  The group center
read by `_is_face_visible` is taken to be the origin, so the world face
centers coincide with the geometric face centers. -/

/-- The side-length-2 cube anchored at vertex A (zero offset), with color
tags `0`/`1`/`2` for the edge, vertex and dashed colors and stroke width 4. -/
def cube2 : Polyhedron ℕ := mkCubeGeometry 2 (0, 0, 0) 0 1 2 4

/-- The front-facing camera position on the positive z axis through the
cube's center `(1, 1, 1)`. -/
def cam2 : Vec3 := (1, 1, 10)

/-- `cube2` after `update_dashed_lines(cam2)`. -/
def cube2upd : Polyhedron ℕ := updateDashedLines cube2 (0, 0, 0) cam2

theorem update_styles_vislist {α : Type} (P : Polyhedron α) (oc cam : Vec3)
    (e : ℕ × ℕ) (he : e ∈ P.edges) :
    (updateDashedLines P oc cam).styles e =
      if (edgeToFaces P.faces e).all
          (fun f => ! (((List.range P.faces.length).map
            (fun g => isFaceVisible P.verticesLocal P.faces g oc cam)).getD f false)) then
        dashedStyle P
      else solidStyle P := by
  simp only [updateDashedLines]
  rw [if_pos he]

theorem cube2_faces :
    cube2.faces =
      [[3, 2, 1, 0], [4, 5, 6, 7], [0, 1, 5, 4], [1, 2, 6, 5], [2, 3, 7, 6], [3, 0, 4, 7]] := by
  show cubeFaces 2 (0, 0, 0) = _
  exact cubeFaces_eq 2 (0, 0, 0) (by norm_num)

theorem cube2_vertices : cube2.verticesLocal = cubeVertices 2 (0, 0, 0) := rfl

theorem cube2_edges :
    cube2.edges =
      [(0, 1), (4, 5), (1, 2), (5, 6), (1, 5), (2, 3),
       (6, 7), (2, 6), (0, 3), (0, 4), (4, 7), (3, 7)] := by
  show edgesOf (cubeFaces 2 (0, 0, 0)) = _
  rw [cubeFaces_eq 2 (0, 0, 0) (by norm_num)]
  decide

theorem cube2_visList :
    ((List.range (6 : ℕ)).map
      (fun g => isFaceVisible (cubeVertices 2 (0, 0, 0))
        [[3, 2, 1, 0], [4, 5, 6, 7], [0, 1, 5, 4], [1, 2, 6, 5], [2, 3, 7, 6], [3, 0, 4, 7]]
        g (0, 0, 0) cam2)) =
      [false, true, false, false, false, false] := by
  have hr : List.range (6 : ℕ) = [0, 1, 2, 3, 4, 5] := by decide
  rw [hr]
  simp only [List.map]
  norm_num [isFaceVisible, computeFaceCenter, computeFaceNormal, cam2,
    cubeVertices, cubeStandardVertices, Vec3.dot, Vec3.cross, Vec3.scale,
    Vec3.normSq, List.getD, List.foldl, decide_eq_true_eq, decide_eq_false_iff_not]

theorem cube2_style (e : ℕ × ℕ)
    (he : e ∈ cube2.edges) :
    cube2upd.styles e =
      if (edgeToFaces cube2.faces e).all
          (fun f => ! ([false, true, false, false, false, false].getD f false)) then
        dashedStyle cube2
      else solidStyle cube2 := by
  show (updateDashedLines cube2 (0, 0, 0) cam2).styles e = _
  rw [update_styles_vislist cube2 (0, 0, 0) cam2 e he]
  rw [cube2_vertices, cube2_faces]
  rw [show ([[3, 2, 1, 0], [4, 5, 6, 7], [0, 1, 5, 4], [1, 2, 6, 5], [2, 3, 7, 6],
    [3, 0, 4, 7]] : List (List ℕ)).length = 6 from rfl]
  rw [cube2_visList]

/-- Claim C2 counterexample: for the side-length-2 cube anchored at A and the fully
front-facing viewpoint `(1, 1, 10)` along the positive z axis, the lateral
edge `(0, 4)` (edge A-A1) is styled dashed by `update_dashed_lines` even
though it is not an edge of the back face `[3, 2, 1, 0]` (the z = 0 face),
so the hidden edges are not exactly the back face's four edges. -/
theorem C2_counterexample :
    (((0, 4) : ℕ × ℕ) ∈ cube2.edges) ∧
    cube2upd.styles (0, 4) = dashedStyle cube2 ∧
    ((((0, 4) : ℕ × ℕ) ∈ facePairs [3, 2, 1, 0]) ↔ False) := by
  have he : (((0, 4) : ℕ × ℕ) ∈ cube2.edges) := by
    rw [cube2_edges]; decide
  refine ⟨he, ?_, by decide⟩
  rw [cube2_style (0, 4) he, cube2_faces, if_pos (by decide)]

/-- Claim C2 (amended): for the side-length-2 cube anchored at A and the fully
front-facing viewpoint `(1, 1, 10)` along the positive z axis (group center
at the origin), `update_dashed_lines` marks as hidden exactly the 4 edges of
the back face together with the 4 lateral edges, and marks none of the 4
edges of the front face: every per-face view vector from an on-axis camera
leaves all four lateral faces back-facing. -/
theorem C2_cube_hidden_edges :
    cube2.edges =
      [(0, 1), (4, 5), (1, 2), (5, 6), (1, 5), (2, 3),
       (6, 7), (2, 6), (0, 3), (0, 4), (4, 7), (3, 7)] ∧
    cube2upd.styles (0, 1) = dashedStyle cube2 ∧
    cube2upd.styles (1, 2) = dashedStyle cube2 ∧
    cube2upd.styles (2, 3) = dashedStyle cube2 ∧
    cube2upd.styles (0, 3) = dashedStyle cube2 ∧
    cube2upd.styles (0, 4) = dashedStyle cube2 ∧
    cube2upd.styles (1, 5) = dashedStyle cube2 ∧
    cube2upd.styles (2, 6) = dashedStyle cube2 ∧
    cube2upd.styles (3, 7) = dashedStyle cube2 ∧
    cube2upd.styles (4, 5) = solidStyle cube2 ∧
    cube2upd.styles (5, 6) = solidStyle cube2 ∧
    cube2upd.styles (6, 7) = solidStyle cube2 ∧
    cube2upd.styles (4, 7) = solidStyle cube2 := by
  refine ⟨cube2_edges, ?_, ?_, ?_, ?_, ?_, ?_, ?_, ?_, ?_, ?_, ?_, ?_⟩
  · rw [cube2_style (0, 1) (by rw [cube2_edges]; decide), cube2_faces,
      if_pos (by decide)]
  · rw [cube2_style (1, 2) (by rw [cube2_edges]; decide), cube2_faces,
      if_pos (by decide)]
  · rw [cube2_style (2, 3) (by rw [cube2_edges]; decide), cube2_faces,
      if_pos (by decide)]
  · rw [cube2_style (0, 3) (by rw [cube2_edges]; decide), cube2_faces,
      if_pos (by decide)]
  · rw [cube2_style (0, 4) (by rw [cube2_edges]; decide), cube2_faces,
      if_pos (by decide)]
  · rw [cube2_style (1, 5) (by rw [cube2_edges]; decide), cube2_faces,
      if_pos (by decide)]
  · rw [cube2_style (2, 6) (by rw [cube2_edges]; decide), cube2_faces,
      if_pos (by decide)]
  · rw [cube2_style (3, 7) (by rw [cube2_edges]; decide), cube2_faces,
      if_pos (by decide)]
  · rw [cube2_style (4, 5) (by rw [cube2_edges]; decide), cube2_faces,
      if_neg (by decide)]
  · rw [cube2_style (5, 6) (by rw [cube2_edges]; decide), cube2_faces,
      if_neg (by decide)]
  · rw [cube2_style (6, 7) (by rw [cube2_edges]; decide), cube2_faces,
      if_neg (by decide)]
  · rw [cube2_style (4, 7) (by rw [cube2_edges]; decide), cube2_faces,
      if_neg (by decide)]

/-! ## `ConeOblique` (cone.py)

The oblique cone computes the tangent points of the slant edges on the base
ellipse with semi-axes `a = radius` and `b = radius * skew_factor` from
closed-form offsets, guarded for small heights. -/

/-- The `(tangent_x_offset, tangent_y_offset)` pair of `ConeOblique.__init__`:
the degenerate branch `(a, 0)` when `h <= b + 0.001`, and otherwise the
closed-form offsets `x = a * sqrt(1 - b^2 / h^2)`, `y = b^2 / h`. -/
noncomputable def coneTangentOffsets (a b h : ℝ) : ℝ × ℝ :=
  if h ≤ b + 1 / 1000 then (a, 0)
  else (a * Real.sqrt (1 - b ^ 2 / h ^ 2), b ^ 2 / h)

/-- The absolute tangent points `p_tangent_left` and `p_tangent_right` of
`ConeOblique.__init__`: the base center displaced by `(∓x, +y)`. -/
noncomputable def coneTangentPoints (center : ℝ × ℝ) (a b h : ℝ) : (ℝ × ℝ) × (ℝ × ℝ) :=
  ((center.1 - (coneTangentOffsets a b h).1, center.2 + (coneTangentOffsets a b h).2),
   (center.1 + (coneTangentOffsets a b h).1, center.2 + (coneTangentOffsets a b h).2))

/-- Claim C3 counterexample: at radius `a = 2`, `b = 4/5` and height
`h = 1601/2000 = b + 0.0005`, the height exceeds `b` yet the source's guard
`h <= b + 0.001` fires, so the computed offsets are the degenerate `(2, 0)`
and the y offset is not the claimed `b^2 / h`. -/
theorem C3_counterexample :
    ((4 : ℝ) / 5 < 1601 / 2000) ∧
    coneTangentOffsets 2 (4 / 5) (1601 / 2000) = (2, 0) ∧
    (((0 : ℝ) = ((4 : ℝ) / 5) ^ 2 / (1601 / 2000)) ↔ False) := by
  refine ⟨by norm_num, ?_, by norm_num⟩
  rw [coneTangentOffsets, if_pos (by norm_num)]

/-- Claim C3 (amended): the tangent-point offsets degenerate to `x = a`, `y = 0`
exactly when `h ≤ b + 0.001` (the source's guard, not `h ≤ b`); above that
threshold they are `x = a * sqrt(1 - b^2 / h^2)` and `y = b^2 / h`, the
tangent points sit at `center + (±x, y)`, and for positive `a`, `b` the
offsets satisfy the base-ellipse equation `x^2/a^2 + y^2/b^2 = 1`. -/
theorem C3_cone_tangent_offsets (a b h : ℝ) :
    (h ≤ b + 1 / 1000 → coneTangentOffsets a b h = (a, 0)) ∧
    (b + 1 / 1000 < h →
      coneTangentOffsets a b h = (a * Real.sqrt (1 - b ^ 2 / h ^ 2), b ^ 2 / h)) ∧
    (∀ center : ℝ × ℝ, coneTangentPoints center a b h =
      ((center.1 - (coneTangentOffsets a b h).1, center.2 + (coneTangentOffsets a b h).2),
       (center.1 + (coneTangentOffsets a b h).1, center.2 + (coneTangentOffsets a b h).2))) ∧
    (0 < a → 0 < b → b + 1 / 1000 < h →
      (coneTangentOffsets a b h).1 ^ 2 / a ^ 2 +
        (coneTangentOffsets a b h).2 ^ 2 / b ^ 2 = 1) := by
  refine ⟨?_, ?_, fun _ => rfl, ?_⟩
  · intro hle
    rw [coneTangentOffsets, if_pos hle]
  · intro hlt
    rw [coneTangentOffsets, if_neg (not_le.mpr hlt)]
  · intro ha hb hlt
    have hh : 0 < h := lt_trans (by linarith) hlt
    have hbh : b < h := by linarith
    have hb2 : b ^ 2 ≤ h ^ 2 := by nlinarith
    have hfrac : b ^ 2 / h ^ 2 ≤ 1 := by
      rw [div_le_one (by positivity)]
      exact hb2
    have hs : Real.sqrt (1 - b ^ 2 / h ^ 2) ^ 2 = 1 - b ^ 2 / h ^ 2 :=
      Real.sq_sqrt (by linarith)
    rw [coneTangentOffsets, if_neg (not_le.mpr hlt)]
    simp only
    rw [mul_pow, hs]
    field_simp
    ring

/-- Claim C3 witness: the amended tangent formulas instantiated at the spec's cone
with radius 2, height 3.5 and skew factor 0.4 (so `b = 0.8`). -/
theorem C3_cone_tangent_offsets_witness :
    ((4 : ℝ) / 5 + 1 / 1000 < 7 / 2) ∧ ((0 : ℝ) < 2) ∧ ((0 : ℝ) < 4 / 5) ∧
    coneTangentOffsets 2 (4 / 5) (7 / 2) =
      (2 * Real.sqrt (1 - ((4 : ℝ) / 5) ^ 2 / ((7 : ℝ) / 2) ^ 2),
       ((4 : ℝ) / 5) ^ 2 / ((7 : ℝ) / 2)) ∧
    (coneTangentOffsets 2 (4 / 5) (7 / 2)).1 ^ 2 / (2 : ℝ) ^ 2 +
      (coneTangentOffsets 2 (4 / 5) (7 / 2)).2 ^ 2 / ((4 : ℝ) / 5) ^ 2 = 1 :=
  ⟨by norm_num, by norm_num, by norm_num,
   (C3_cone_tangent_offsets 2 (4 / 5) (7 / 2)).2.1 (by norm_num),
   (C3_cone_tangent_offsets 2 (4 / 5) (7 / 2)).2.2.2 (by norm_num) (by norm_num) (by norm_num)⟩

/-! ## `SphereOblique` (sphere.py)

The oblique sphere places its X axis along slope `k = tan(x_axis_angle)` and
intersects that ray with the equator ellipse `x^2/a^2 + y^2/b^2 = 1`
analytically. -/

/-- The `(x_intersect, y_intersect)` pair of `SphereOblique._create_axes`:
`x = -(a b) / sqrt(b^2 + a^2 k^2)` (negative root, the X axis points left)
and `y = k x`, with `a = radius`, `b = radius * skew_factor` and
`k = tan(x_axis_angle)`. -/
noncomputable def sphereXAxisIntersect (radius skew ang : ℝ) : ℝ × ℝ :=
  let k := Real.tan ang
  let a := radius
  let b := radius * skew
  let x := -(a * b) / Real.sqrt (b ^ 2 + a ^ 2 * k ^ 2)
  (x, k * x)

theorem ray_ellipse_identity (a b k : ℝ) (ha : a ≠ 0) (hb : b ≠ 0) :
    (-(a * b) / Real.sqrt (b ^ 2 + a ^ 2 * k ^ 2)) ^ 2 / a ^ 2 +
      (k * (-(a * b) / Real.sqrt (b ^ 2 + a ^ 2 * k ^ 2))) ^ 2 / b ^ 2 = 1 := by
  have hb2 : 0 < b ^ 2 := pow_two_pos_of_ne_zero hb
  have hD : 0 < b ^ 2 + a ^ 2 * k ^ 2 := by positivity
  have hs : Real.sqrt (b ^ 2 + a ^ 2 * k ^ 2) ^ 2 = b ^ 2 + a ^ 2 * k ^ 2 :=
    Real.sq_sqrt hD.le
  have hsne : Real.sqrt (b ^ 2 + a ^ 2 * k ^ 2) ≠ 0 :=
    ne_of_gt (Real.sqrt_pos.mpr hD)
  field_simp
  ring

/-- Claim C4: for every positive radius and skew factor (and any axis angle), the
stored X-axis/equator-ellipse intersection offset is
`x = -(a b)/sqrt(b^2 + a^2 k^2)` with `y = k x`, and the point satisfies the
equator-ellipse equation `x^2/a^2 + y^2/b^2 = 1` exactly (hence within any
tolerance; the spec instance is radius 2, skew 0.3, angle -135 degrees). -/
theorem C4_sphere_axis_intersection (radius skew ang : ℝ)
    (hr : 0 < radius) (hs : 0 < skew) :
    (sphereXAxisIntersect radius skew ang).1 =
      -(radius * (radius * skew)) /
        Real.sqrt ((radius * skew) ^ 2 + radius ^ 2 * Real.tan ang ^ 2) ∧
    (sphereXAxisIntersect radius skew ang).2 =
      Real.tan ang * (sphereXAxisIntersect radius skew ang).1 ∧
    (sphereXAxisIntersect radius skew ang).1 ^ 2 / radius ^ 2 +
      (sphereXAxisIntersect radius skew ang).2 ^ 2 / (radius * skew) ^ 2 = 1 := by
  refine ⟨rfl, rfl, ?_⟩
  exact ray_ellipse_identity radius (radius * skew) (Real.tan ang)
    (ne_of_gt hr) (ne_of_gt (mul_pos hr hs))

/-- Claim C4 witness: the intersection identity instantiated at the spec's sphere
with radius 2, skew factor 0.3 and X-axis angle -135 degrees. -/
theorem C4_sphere_axis_intersection_witness :
    ((0 : ℝ) < 2) ∧ ((0 : ℝ) < 3 / 10) ∧
    ((sphereXAxisIntersect 2 (3 / 10) (-(3 * Real.pi / 4))).1 =
      -((2 : ℝ) * (2 * (3 / 10))) /
        Real.sqrt (((2 : ℝ) * (3 / 10)) ^ 2 + 2 ^ 2 * Real.tan (-(3 * Real.pi / 4)) ^ 2) ∧
    (sphereXAxisIntersect 2 (3 / 10) (-(3 * Real.pi / 4))).2 =
      Real.tan (-(3 * Real.pi / 4)) * (sphereXAxisIntersect 2 (3 / 10) (-(3 * Real.pi / 4))).1 ∧
    (sphereXAxisIntersect 2 (3 / 10) (-(3 * Real.pi / 4))).1 ^ 2 / (2 : ℝ) ^ 2 +
      (sphereXAxisIntersect 2 (3 / 10) (-(3 * Real.pi / 4))).2 ^ 2 / ((2 : ℝ) * (3 / 10)) ^ 2 = 1) :=
  ⟨by norm_num, by norm_num,
   C4_sphere_axis_intersection 2 (3 / 10) (-(3 * Real.pi / 4)) (by norm_num) (by norm_num)⟩

/-! ## `StandardEllipse` (analytic_geometry.py)

The ellipse component validates `a >= b` (raising otherwise), computes the
focal distance and places foci and vertices from it. -/

/-- The derived data of a successfully constructed `StandardEllipse`: the
semi-axes, the focal distance `c` and the two focus positions. -/
structure StandardEllipse where
  a : ℝ
  b : ℝ
  c : ℝ
  f1 : ℝ × ℝ
  f2 : ℝ × ℝ

/-- `StandardEllipse.__init__`: raises (`none`) when `a < b`; otherwise
stores `c = sqrt(a^2 - b^2)` and the foci at `LEFT * c` and `RIGHT * c`. -/
noncomputable def mkStandardEllipse (a b : ℝ) : Option StandardEllipse :=
  if a < b then none
  else some
    { a := a, b := b, c := Real.sqrt (a ^ 2 - b ^ 2),
      f1 := (-(Real.sqrt (a ^ 2 - b ^ 2)), 0),
      f2 := (Real.sqrt (a ^ 2 - b ^ 2), 0) }

/-- Claim C5: `StandardEllipse` construction raises exactly when `a < b`; for all
`a ≥ b > 0` it computes the focal distance `c = sqrt(a^2 - b^2)`, places the
foci at `(-c, 0)` and `(c, 0)`, and `c < a`, so the foci lie strictly inside
the ellipse. -/
theorem C5_ellipse_foci (a b : ℝ) :
    (mkStandardEllipse a b = none ↔ a < b) ∧
    (0 < b → b ≤ a →
      ∃ E, mkStandardEllipse a b = some E ∧
        E.c = Real.sqrt (a ^ 2 - b ^ 2) ∧
        E.f1 = (-E.c, 0) ∧ E.f2 = (E.c, 0) ∧ E.c < a) := by
  constructor
  · by_cases h : a < b
    · simp [mkStandardEllipse, h]
    · simp [mkStandardEllipse, h]
  · intro hb hba
    have ha : 0 < a := lt_of_lt_of_le hb hba
    rw [mkStandardEllipse, if_neg (not_lt.mpr hba)]
    refine ⟨_, rfl, rfl, rfl, rfl, ?_⟩
    show Real.sqrt (a ^ 2 - b ^ 2) < a
    rw [Real.sqrt_lt' ha]
    nlinarith

/-- Claim C5 witness: the ellipse contract instantiated at the source defaults
`a = 3`, `b = 2`. -/
theorem C5_ellipse_foci_witness :
    ((mkStandardEllipse 3 2 = none ↔ (3 : ℝ) < 2) ∧ ((0 : ℝ) < 2) ∧ ((2 : ℝ) ≤ 3)) ∧
    (∃ E, mkStandardEllipse 3 2 = some E ∧
      E.c = Real.sqrt ((3 : ℝ) ^ 2 - 2 ^ 2) ∧
      E.f1 = (-E.c, 0) ∧ E.f2 = (E.c, 0) ∧ E.c < 3) :=
  ⟨⟨(C5_ellipse_foci 3 2).1, by norm_num, by norm_num⟩,
   (C5_ellipse_foci 3 2).2 (by norm_num) (by norm_num)⟩

/-! ## `StandardHyperbola` (analytic_geometry.py)

The hyperbola stores `c = sqrt(a^2 + b^2)` and samples each branch at 80
x values on the fixed finite extension `[a, a + 4]` with
`y = ±b * sqrt(x^2/a^2 - 1)`, negating x for the left branch. -/

/-- The focal distance of `StandardHyperbola.__init__`. -/
noncomputable def hyperbolaC (a b : ℝ) : ℝ := Real.sqrt (a ^ 2 + b ^ 2)

/-- The 80 sample abscissas `np.linspace(a, a + 4, 80)` of the branch
builders: `a + i * 4/79` for `i = 0, ..., 79`. -/
noncomputable def hyperbolaSampleXs (a : ℝ) : List ℝ :=
  (List.range 80).map (fun (i : ℕ) => a + (i : ℝ) * (4 / 79))

/-- `_create_hyperbola_branch_upper`: the sampled points
`(±x, b * sqrt(x^2/a^2 - 1))`, with x negated for the left branch. -/
noncomputable def hyperbolaBranchUpper (a b : ℝ) (left : Bool) : List (ℝ × ℝ) :=
  (hyperbolaSampleXs a).map
    (fun x => (if left then -x else x, b * Real.sqrt (x ^ 2 / a ^ 2 - 1)))

/-- `_create_hyperbola_branch_lower`: the same abscissas with
`y = -b * sqrt(x^2/a^2 - 1)`. -/
noncomputable def hyperbolaBranchLower (a b : ℝ) (left : Bool) : List (ℝ × ℝ) :=
  (hyperbolaSampleXs a).map
    (fun x => (if left then -x else x, -b * Real.sqrt (x ^ 2 / a ^ 2 - 1)))

theorem hyperbolaSampleXs_ge (a : ℝ) : ∀ x ∈ hyperbolaSampleXs a, a ≤ x := by
  intro x hx
  simp only [hyperbolaSampleXs, List.mem_map, List.mem_range] at hx
  obtain ⟨i, _, rfl⟩ := hx
  have hnn : (0 : ℝ) ≤ (i : ℝ) * (4 / 79) := mul_nonneg (Nat.cast_nonneg i) (by norm_num)
  linarith

theorem hyperbola_sample_point_on_curve (a b x c xx : ℝ) (ha : 0 < a) (hb : b ≠ 0)
    (hx : a ≤ x) (hc : c = b ∨ c = -b) (hxx : xx = x ∨ xx = -x) :
    xx ^ 2 / a ^ 2 - (c * Real.sqrt (x ^ 2 / a ^ 2 - 1)) ^ 2 / b ^ 2 = 1 := by
  have hx2 : a ^ 2 ≤ x ^ 2 := by nlinarith
  have hone : 1 ≤ x ^ 2 / a ^ 2 := by
    rw [le_div_iff₀ (by positivity)]
    linarith
  have hs : Real.sqrt (x ^ 2 / a ^ 2 - 1) ^ 2 = x ^ 2 / a ^ 2 - 1 :=
    Real.sq_sqrt (by linarith)
  have hxx2 : xx ^ 2 = x ^ 2 := by rcases hxx with rfl | rfl <;> ring
  have hc2 : c ^ 2 = b ^ 2 := by rcases hc with rfl | rfl <;> ring
  rw [hxx2, mul_pow, hs, hc2]
  field_simp
  ring

/-- Claim C6: for all positive `a`, `b` the hyperbola's focal distance
`c = sqrt(a^2 + b^2)` exceeds `a`, and every one of the 80 sampled points of
each branch half (upper and lower, left and right) satisfies
`x^2/a^2 - y^2/b^2 = 1` exactly. -/
theorem C6_hyperbola_branches (a b : ℝ) (ha : 0 < a) (hb : 0 < b) :
    a < hyperbolaC a b ∧
    (∀ lr : Bool, ∀ p ∈ hyperbolaBranchUpper a b lr,
      p.1 ^ 2 / a ^ 2 - p.2 ^ 2 / b ^ 2 = 1) ∧
    (∀ lr : Bool, ∀ p ∈ hyperbolaBranchLower a b lr,
      p.1 ^ 2 / a ^ 2 - p.2 ^ 2 / b ^ 2 = 1) := by
  refine ⟨?_, ?_, ?_⟩
  · rw [hyperbolaC]
    exact (Real.lt_sqrt ha.le).mpr (by nlinarith)
  · intro lr p hp
    simp only [hyperbolaBranchUpper, List.mem_map] at hp
    obtain ⟨x, hxmem, rfl⟩ := hp
    have hx : a ≤ x := hyperbolaSampleXs_ge a x hxmem
    apply hyperbola_sample_point_on_curve a b x b _ ha (ne_of_gt hb) hx (Or.inl rfl)
    cases lr <;> simp
  · intro lr p hp
    simp only [hyperbolaBranchLower, List.mem_map] at hp
    obtain ⟨x, hxmem, rfl⟩ := hp
    have hx : a ≤ x := hyperbolaSampleXs_ge a x hxmem
    apply hyperbola_sample_point_on_curve a b x (-b) _ ha (ne_of_gt hb) hx (Or.inr rfl)
    cases lr <;> simp

/-- Claim C6 witness: the branch-sample property instantiated at the source
defaults `a = 3`, `b = 2`. -/
theorem C6_hyperbola_branches_witness :
    (((0 : ℝ) < 3) ∧ ((0 : ℝ) < 2)) ∧
    ((3 : ℝ) < hyperbolaC 3 2 ∧
    (∀ lr : Bool, ∀ p ∈ hyperbolaBranchUpper 3 2 lr,
      p.1 ^ 2 / (3 : ℝ) ^ 2 - p.2 ^ 2 / (2 : ℝ) ^ 2 = 1) ∧
    (∀ lr : Bool, ∀ p ∈ hyperbolaBranchLower 3 2 lr,
      p.1 ^ 2 / (3 : ℝ) ^ 2 - p.2 ^ 2 / (2 : ℝ) ^ 2 = 1)) :=
  ⟨⟨by norm_num, by norm_num⟩, C6_hyperbola_branches 3 2 (by norm_num) (by norm_num)⟩

/-! ## `StandardParabola` (analytic_geometry.py)

The parabola uppercases the supplied direction string, then
`_calculate_positions` places the focus at offset `p/2` from the vertex and
the directrix at offset `p/2` on the opposite side for the four cardinal
directions, and raises `ValueError` on anything else. -/

/-- Python's `direction.upper()` for the ASCII direction strings used here. -/
def pyUpper (s : String) : String := ⟨s.data.map Char.toUpper⟩

/-- `StandardParabola._calculate_positions` (as invoked from `__init__`,
which stores `direction.upper()`): the focus position, the directrix
position and the directrix line direction tag, or `none` for the
`ValueError` of the final `else` branch. -/
noncomputable def parabolaPositions (p : ℝ) (direction : String) :
    Option ((ℝ × ℝ) × (ℝ × ℝ) × String) :=
  let d := pyUpper direction
  let ph := p / 2
  if d = "RIGHT" then some ((ph, 0), (-ph, 0), "vertical")
  else if d = "LEFT" then some ((-ph, 0), (ph, 0), "vertical")
  else if d = "UP" then some ((0, ph), (0, -ph), "horizontal")
  else if d = "DOWN" then some ((0, -ph), (0, ph), "horizontal")
  else none

/-- Claim C7: `StandardParabola` construction raises exactly when the uppercased
direction is none of RIGHT, LEFT, UP, DOWN (no default direction is
substituted), and for each recognized direction the focus sits at offset
`p/2` from the vertex with the directrix at offset `p/2` on the opposite
side. -/
theorem C7_parabola_positions (p : ℝ) (direction : String) :
    (parabolaPositions p direction = none ↔
      pyUpper direction ∉ (["RIGHT", "LEFT", "UP", "DOWN"] : List String)) ∧
    parabolaPositions p "RIGHT" = some ((p / 2, 0), (-(p / 2), 0), "vertical") ∧
    parabolaPositions p "LEFT" = some ((-(p / 2), 0), (p / 2, 0), "vertical") ∧
    parabolaPositions p "UP" = some ((0, p / 2), (0, -(p / 2)), "horizontal") ∧
    parabolaPositions p "DOWN" = some ((0, -(p / 2)), (0, p / 2), "horizontal") := by
  refine ⟨?_, ?_, ?_, ?_, ?_⟩
  · by_cases h1 : pyUpper direction = "RIGHT"
    · simp [parabolaPositions, h1]
    · by_cases h2 : pyUpper direction = "LEFT"
      · simp [parabolaPositions, h1, h2]
      · by_cases h3 : pyUpper direction = "UP"
        · simp [parabolaPositions, h1, h2, h3]
        · by_cases h4 : pyUpper direction = "DOWN"
          · simp [parabolaPositions, h1, h2, h3, h4]
          · simp [parabolaPositions, h1, h2, h3, h4]
  · have e : pyUpper "RIGHT" = "RIGHT" := by decide
    simp [parabolaPositions, e]
  · have e : pyUpper "LEFT" = "LEFT" := by decide
    simp [parabolaPositions, e]
  · have e : pyUpper "UP" = "UP" := by decide
    simp [parabolaPositions, e]
  · have e : pyUpper "DOWN" = "DOWN" := by decide
    simp [parabolaPositions, e]

/-! ## `StandardLine` (analytic_line.py)

The line component derives slope, intercepts and the general-form
coefficients from two points, with `0.001` epsilon guards on the
vertical/horizontal degeneracies. -/

/-- The numeric state derived by `StandardLine.__init__`: the two points, the
vertical/horizontal flags, slope, y intercept, the general-form coefficients
`A x + B y + C = 0`, and the optional axis intercepts. -/
structure StandardLine where
  p1 : ℚ × ℚ
  p2 : ℚ × ℚ
  isVertical : Bool
  isHorizontal : Bool
  slope : ℚ
  yIntercept : ℚ
  A : ℚ
  B : ℚ
  C : ℚ
  xIntercept : Option ℚ
  yInterceptPoint : Option ℚ

/-- `StandardLine.__init__` on 2D points: `delta = p2 - p1`; the line is
vertical (resp. horizontal) when `|delta[0]| < 0.001` (resp.
`|delta[1]| < 0.001`); slope and y intercept default to `0` and are assigned
only when the line is not vertical and `|delta[0]| > 0.001`; `(A, B, C)` is
`(1, 0, -x1)` for vertical, `(0, 1, -y1)` for horizontal and
`(slope, -1, y_intercept)` otherwise; the axis intercepts `-C/A` and `-C/B`
exist when the respective coefficient exceeds `0.001` in absolute value. -/
def mkStandardLine (point1 point2 : ℚ × ℚ) : StandardLine :=
  let dx := point2.1 - point1.1
  let dy := point2.2 - point1.2
  let isVertical : Bool := |dx| < 1 / 1000
  let isHorizontal : Bool := |dy| < 1 / 1000
  let slope : ℚ := if isVertical then 0 else if 1 / 1000 < |dx| then dy / dx else 0
  let yIntercept : ℚ :=
    if isVertical then 0
    else if 1 / 1000 < |dx| then point1.2 - (dy / dx) * point1.1 else 0
  let A : ℚ := if isVertical then 1 else if isHorizontal then 0 else slope
  let B : ℚ := if isVertical then 0 else if isHorizontal then 1 else -1
  let C : ℚ :=
    if isVertical then -point1.1 else if isHorizontal then -point1.2 else yIntercept
  let yInterceptPoint : Option ℚ := if 1 / 1000 < |B| then some (-C / B) else none
  let xIntercept : Option ℚ := if 1 / 1000 < |A| then some (-C / A) else none
  ⟨point1, point2, isVertical, isHorizontal, slope, yIntercept, A, B, C,
    xIntercept, yInterceptPoint⟩

/-- Claim C8: for the line through `p1 = (-3, -2)` and `p2 = (3, 4)`, the derived
slope is 1, the y intercept is 1, and the general-form coefficients are
`(A, B, C) = (1, -1, 1)` (exactly, hence in particular up to scale). -/
theorem C8_line_through_points :
    (mkStandardLine (-3, -2) (3, 4)).slope = 1 ∧
    (mkStandardLine (-3, -2) (3, 4)).yIntercept = 1 ∧
    (mkStandardLine (-3, -2) (3, 4)).A = 1 ∧
    (mkStandardLine (-3, -2) (3, 4)).B = -1 ∧
    (mkStandardLine (-3, -2) (3, 4)).C = 1 := by
  norm_num [mkStandardLine]

end Mvp
